import Mathlib

/-!
# Verification of the super-request streaming parsers

Shallow embedding of the core parsers of the `super-request` library:

* `setSearchParamJson` — the PHP-style bracket-notation query mapper
  (`src/private/super_url.ts`);
* `decodeUriComponentInplace` — the percent/plus decoder of the
  URL-encoded streaming parser (`form_url_encoded.ts`);
* `blobSlice` — the stream-backed `Blob.slice` implementation
  (`src/private/super_file.ts`);
* `parseFormData` — the multipart/form-data streaming parser
  (`form_data.ts`), modelled as an executable machine that consumes a
  list of byte chunks exactly the way the TypeScript code pulls them
  from its BYOB reader.

Values travel as `List Nat` byte lists; JavaScript objects are ordered
association lists; machine integers that can go negative in JavaScript
are `Int` with the same comparisons as the source.
-/

deriving instance DecidableEq for Except

namespace SuperRequest

mutual
/-- `SearchParam` from `super_url.ts`: a string, an ordered string-keyed
object, or an array. -/
inductive SP where
  | str : String → SP
  | obj : SPMap → SP
  | arr : SPList → SP
deriving DecidableEq

/-- An ordered JavaScript object with `SP` values (insertion order). -/
inductive SPMap where
  | nil : SPMap
  | cons : String → SP → SPMap → SPMap
deriving DecidableEq

/-- A JavaScript array of `SP` values. -/
inductive SPList where
  | nil : SPList
  | cons : SP → SPList → SPList
deriving DecidableEq
end

namespace SPMap

/-- JS object property write: replace the value in place if the key exists,
otherwise append the new key at the end. -/
def set : SPMap → String → SP → SPMap
  | .nil, k, v => .cons k v .nil
  | .cons k' v' rest, k, v =>
    if k' = k then .cons k' v rest else .cons k' v' (set rest k v)

/-- JS object property read. -/
def lookup : SPMap → String → Option SP
  | .nil, _ => none
  | .cons k' v' rest, k => if k' = k then some v' else lookup rest k

/-- `Object.keys(m).length`. -/
def size : SPMap → Nat
  | .nil => 0
  | .cons _ _ rest => size rest + 1

/-- Is the key present? -/
def hasKey (m : SPMap) (k : String) : Bool :=
  (m.lookup k).isSome

end SPMap

namespace SPList

/-- `a.length`. -/
def length : SPList → Nat
  | .nil => 0
  | .cons _ rest => length rest + 1

/-- `a[i]` (out of range is `undefined`). -/
def get? : SPList → Nat → Option SP
  | .nil, _ => none
  | .cons v _, 0 => some v
  | .cons _ rest, n + 1 => get? rest n

/-- `a[i] = v` for `i < a.length`. -/
def setAt : SPList → Nat → SP → SPList
  | .nil, _, _ => .nil
  | .cons _ rest, 0, v => .cons v rest
  | .cons w rest, n + 1, v => .cons w (setAt rest n v)

/-- `a.push(v)` / write at the append position. -/
def push : SPList → SP → SPList
  | .nil, v => .cons v .nil
  | .cons w rest, v => .cons w (push rest v)

/-- `Object.fromEntries(a.map((item, index) => [index+'', item]))`:
convert an array to an object keyed by stringified indices, starting at
index `i`. -/
def toObjFrom : SPList → Nat → SPMap
  | .nil, _ => .nil
  | .cons v rest, i => .cons (toString i) v (toObjFrom rest (i + 1))

end SPList

/-- A subscript as the TypeScript code manipulates it: either a string key
or a number (`sub : string|number`). -/
inductive Sub where
  | s : String → Sub
  | n : Nat → Sub
deriving DecidableEq

/-- `Array.isArray(map) ? map[Number(sub)] : map[sub+'']` — reading the
current subscript out of the current container. -/
def spGet : SP → Sub → Option SP
  | .obj m, .s k => m.lookup k
  | .obj m, .n k => m.lookup (toString k)
  | .arr a, .n k => a.get? k
  | .arr a, .s k => match k.toNat? with
    | some i => a.get? i
    | none => none
  | .str _, _ => none

/-- `map[sub] = v` on the current container (array writes occur at the
append position `a.length` in every reachable case, but in-range
assignment is kept for fidelity). -/
def spSet : SP → Sub → SP → SP
  | .obj m, .s k, v => .obj (m.set k v)
  | .obj m, .n k, v => .obj (m.set (toString k) v)
  | .arr a, .n k, v =>
    if k < a.length then .arr (a.setAt k v)
    else if k = a.length then .arr (a.push v)
    else .arr a
  | .arr a, .s k, v => match k.toNat? with
    | some i =>
      if i < a.length then .arr (a.setAt i v)
      else if i = a.length then .arr (a.push v)
      else .arr a
    | none => .arr a
  | .str _, _, v => v

/-- One loop iteration of `setSearchParamJson` (lines 80–113 of
`super_url.ts`), recursing over the parsed bracket segments: given the
value currently stored at the pending key (`nextMap`, with JavaScript
`undefined` modelled as `none`) and the remaining segments, produce the
new value to store there.  The final `map[sub] = value` of line 114 is
the base case. -/
def assignPath (nextMap : Option SP) (segs : List String) (value : String) : SP :=
  match segs with
  | [] => .str value
  | seg :: rest =>
    -- `nextSub`: lines 86–94
    let nextSub : Sub :=
      if seg ≠ "" then .s seg
      else match nextMap with
        | none => .n 0                  -- typeof(undefined) != 'object'
        | some (.str _) => .n 0         -- typeof(string) != 'object'
        | some (.arr a) => .n a.length
        | some (.obj m) => .s (toString m.size)
    -- `nextMapConv`: lines 95–103
    let nextMapConv : SP :=
      match nextMap with
      | some (.arr a) =>
        if nextSub = .n a.length then .arr a
        else .obj (a.toObjFrom 0)
      | some (.obj m) => .obj m
      | _ => if nextSub = .n 0 then .arr .nil else .obj .nil
    let child := spGet nextMapConv nextSub
    spSet nextMapConv nextSub (assignPath child rest value)

/-- Split a character list at the first `']'` (the `name.indexOf(']', pos)`
of line 80), returning the part before it and the part after it. -/
def breakRB : List Char → Option (List Char × List Char)
  | [] => none
  | c :: rest =>
    if c = ']' then some ([], rest)
    else match breakRB rest with
      | none => none
      | some (a, b) => some (c :: a, b)

theorem breakRB_length (l a b : List Char) (h : breakRB l = some (a, b)) :
    b.length < l.length := by
  induction l generalizing a b with
  | nil => simp [breakRB] at h
  | cons c rest ih =>
    simp only [breakRB] at h
    split at h
    · cases h; simp
    · cases hrec : breakRB rest with
      | none => rw [hrec] at h; cases h
      | some p =>
        rw [hrec] at h
        cases h
        have := ih p.1 p.2 (by rw [hrec])
        simpa using Nat.lt_succ_of_lt this

theorem breakRB_split (l : List Char) :
    ∀ a b, breakRB l = some (a, b) → l = a ++ ']' :: b := by
  induction l with
  | nil => intro a b h; simp [breakRB] at h
  | cons c rest ih =>
    intro a b h
    simp only [breakRB] at h
    split at h
    · next hc => cases h; simp [hc]
    · cases hrec : breakRB rest with
      | none => rw [hrec] at h; cases h
      | some p =>
        rw [hrec] at h; cases h
        have := ih p.1 p.2 (by rw [hrec])
        simp [this]

theorem breakRB_none_mem (l : List Char) (h : breakRB l = none) : ']' ∉ l := by
  induction l with
  | nil => simp
  | cons c rest ih =>
    simp only [breakRB] at h
    split at h
    · cases h
    · next hc =>
      cases hrec : breakRB rest with
      | none =>
        intro hm
        rcases List.mem_cons.mp hm with h1 | h2
        · exact hc h1.symm
        · exact ih hrec h2
      | some p => rw [hrec] at h; cases h

/-- The bracket-segment scanner of `setSearchParamJson`, with explicit fuel
(one unit per bracket group) so that it is structurally recursive: the
input is the characters after an opening `'['`; it returns the complete
segments and the well-formedness flag (`ok` of the source).  A missing
`']'` stops the scan with `ok = false`; a `']'` not immediately followed
by `'['` stops it with `ok = true` (line 109 of the source). -/
def parseSegsF : Nat → List Char → List String × Bool
  | 0, _ => ([], false)
  | fuel + 1, l =>
    match breakRB l with
    | none => ([], false)
    | some (seg, after) =>
      match after with
      | '[' :: rest =>
        let p := parseSegsF fuel rest
        (String.mk seg :: p.1, p.2)
      | _ => ([String.mk seg], true)

/-- `parseSegsF` with always-sufficient fuel (`breakRB` strictly shrinks the
remainder, so `l.length + 1` groups can never be exceeded). -/
def parseSegs (l : List Char) : List String × Bool := parseSegsF (l.length + 1) l

theorem parseSegsF_eq_none (fuel : Nat) (l : List Char) (hb : breakRB l = none) :
    parseSegsF (fuel + 1) l = ([], false) := by
  simp [parseSegsF, hb]

theorem parseSegsF_eq_cont (fuel : Nat) (l seg rest : List Char)
    (hb : breakRB l = some (seg, '[' :: rest)) :
    parseSegsF (fuel + 1) l =
      (String.mk seg :: (parseSegsF fuel rest).1, (parseSegsF fuel rest).2) := by
  simp [parseSegsF, hb]

theorem parseSegsF_eq_stop (fuel : Nat) (l seg after : List Char)
    (hb : breakRB l = some (seg, after)) (hne : ∀ r, after ≠ '[' :: r) :
    parseSegsF (fuel + 1) l = ([String.mk seg], true) := by
  rcases after with _ | ⟨c, rest⟩
  · simp [parseSegsF, hb]
  · by_cases hc : c = '['
    · subst hc
      exact absurd rfl (hne rest)
    · simp only [parseSegsF, hb]

/-- Fuel beyond the length of the remainder never matters. -/
theorem parseSegsF_stable : ∀ (fuel fuel' : Nat) (l : List Char),
    l.length < fuel → l.length < fuel' → parseSegsF fuel l = parseSegsF fuel' l := by
  intro fuel
  induction fuel with
  | zero => intro fuel' l h; omega
  | succ n ih =>
    intro fuel' l h h'
    cases fuel' with
    | zero => omega
    | succ n' =>
      cases hb : breakRB l with
      | none => rw [parseSegsF_eq_none n l hb, parseSegsF_eq_none n' l hb]
      | some p =>
        obtain ⟨seg, after⟩ := p
        rcases after with _ | ⟨c, rest⟩
        · rw [parseSegsF_eq_stop n l seg [] hb (by intro r hr; cases hr),
            parseSegsF_eq_stop n' l seg [] hb (by intro r hr; cases hr)]
        · by_cases hc : c = '['
          · subst hc
            have hlen : ('[' :: rest).length < l.length := breakRB_length l seg _ hb
            simp only [List.length_cons] at hlen
            rw [parseSegsF_eq_cont n l seg rest hb, parseSegsF_eq_cont n' l seg rest hb,
              ih n' rest (by omega) (by omega)]
          · have hne : ∀ r, c :: rest ≠ '[' :: r := by
              intro r hr; injection hr with h1 _; exact hc h1
            rw [parseSegsF_eq_stop n l seg _ hb hne, parseSegsF_eq_stop n' l seg _ hb hne]

theorem parseSegs_eq_none (l : List Char) (hb : breakRB l = none) :
    parseSegs l = ([], false) := parseSegsF_eq_none l.length l hb

theorem parseSegs_eq_cont (l seg rest : List Char)
    (hb : breakRB l = some (seg, '[' :: rest)) :
    parseSegs l = (String.mk seg :: (parseSegs rest).1, (parseSegs rest).2) := by
  have hlen : ('[' :: rest).length < l.length := breakRB_length l seg _ hb
  simp only [List.length_cons] at hlen
  unfold parseSegs
  rw [parseSegsF_eq_cont l.length l seg rest hb,
    parseSegsF_stable l.length (rest.length + 1) rest (by omega) (by omega)]

theorem parseSegs_eq_stop (l seg after : List Char)
    (hb : breakRB l = some (seg, after)) (hne : ∀ r, after ≠ '[' :: r) :
    parseSegs l = ([String.mk seg], true) := parseSegsF_eq_stop l.length l seg after hb hne

/-- Claim-side predicate, following the spec's words for C5: the name
contains an opening `'['` with no `']'` anywhere after it. -/
def hasUnclosedBracket : List Char → Bool
  | [] => false
  | c :: rest => (decide (c = '[') && !(decide (']' ∈ rest))) || hasUnclosedBracket rest

theorem hasUnclosedBracket_append (x y : List Char)
    (h : hasUnclosedBracket y = true) : hasUnclosedBracket (x ++ y) = true := by
  induction x with
  | nil => simpa using h
  | cons c rest ih =>
    simp only [List.cons_append, hasUnclosedBracket, Bool.or_eq_true]
    exact Or.inr ih

theorem parseSegsF_false_unclosed : ∀ (fuel : Nat) (l : List Char), l.length < fuel →
    (parseSegsF fuel l).2 = false → hasUnclosedBracket ('[' :: l) = true := by
  intro fuel
  induction fuel with
  | zero => intro l hl; omega
  | succ n ih =>
    intro l hl h
    cases hb : breakRB l with
    | none =>
      have hmem := breakRB_none_mem l hb
      simp [hasUnclosedBracket, hmem]
    | some p =>
      obtain ⟨seg, after⟩ := p
      rcases after with _ | ⟨c, rest⟩
      · rw [parseSegsF_eq_stop n l seg [] hb (by intro r hr; cases hr)] at h
        simp at h
      · by_cases hc : c = '['
        · subst hc
          rw [parseSegsF_eq_cont n l seg rest hb] at h
          have hlen : ('[' :: rest).length < l.length := breakRB_length l seg _ hb
          simp only [List.length_cons] at hlen
          have ihres := ih rest (by omega) h
          have hsplit := breakRB_split l seg ('[' :: rest) hb
          rw [hsplit]
          have hre : ('[' : Char) :: (seg ++ ']' :: '[' :: rest) =
              (('[' :: seg) ++ [']']) ++ ('[' :: rest) := by simp
          rw [hre]
          exact hasUnclosedBracket_append _ _ ihres
        · rw [parseSegsF_eq_stop n l seg (c :: rest) hb
            (by intro r hr; injection hr with h1 _; exact hc h1)] at h
          simp at h

theorem parseSegs_false_unclosed (l : List Char)
    (h : (parseSegs l).2 = false) : hasUnclosedBracket ('[' :: l) = true :=
  parseSegsF_false_unclosed (l.length + 1) l (Nat.lt_succ_self _) h

/-- `true` on the characters a flat key may contain: everything except the
`'['` that `name.indexOf('[')` searches for. -/
def notLB (c : Char) : Bool := c ≠ '['

/-- The key before the first `'['` (or the whole name): `name.slice(0, pos)`
of the source. -/
def headKey (name : String) : String :=
  String.mk (name.toList.takeWhile notLB)

/-- `setSearchParamJson(obj, name, value)` from `super_url.ts` lines
70–116: when the name has no `'['` (`pos == -1`) it is a plain property
write; otherwise walk the bracket path, build the necessary containers and
set the value.  Returns the updated object and the well-formedness flag. -/
def setSearchParamJson (obj : SPMap) (name value : String) : SPMap × Bool :=
  match name.toList.dropWhile notLB with
  | [] => (obj.set name (.str value), true)
  | _ :: rest =>
    let p := parseSegs rest
    (obj.set (headKey name) (assignPath (obj.lookup (headKey name)) p.1 value), p.2)

/-- Fold a query-string pair list through `setSearchParamJson`
(`parseSearchParamsJson` of the source). -/
def parseSearchParamsJson (pairs : List (String × String)) : SPMap :=
  pairs.foldl (fun acc p => (setSearchParamJson acc p.1 p.2).1) .nil

theorem setSearchParamJson_no_bracket (obj : SPMap) (name value : String)
    (h : name.toList.dropWhile notLB = []) :
    setSearchParamJson obj name value = (obj.set name (.str value), true) := by
  unfold setSearchParamJson
  rw [h]

theorem setSearchParamJson_bracket (obj : SPMap) (name value : String)
    (c : Char) (rest : List Char)
    (h : name.toList.dropWhile notLB = c :: rest) :
    setSearchParamJson obj name value =
      (obj.set (headKey name)
        (assignPath (obj.lookup (headKey name)) (parseSegs rest).1 value),
       (parseSegs rest).2) := by
  unfold setSearchParamJson
  rw [h]

theorem dropWhile_head_not (p : Char → Bool) :
    ∀ (l : List Char) c t, l.dropWhile p = c :: t → p c = false := by
  intro l
  induction l with
  | nil => intro c t h; cases h
  | cons x rest ih =>
    intro c t h
    rw [List.dropWhile_cons] at h
    split at h
    · exact ih c t h
    · next hx =>
      injection h with h1 _
      subst h1
      exact Bool.of_not_eq_true hx

theorem SPMap.lookup_set_ne : ∀ (m : SPMap) (k k' : String) (v : SP), k ≠ k' →
    (m.set k' v).lookup k = m.lookup k
  | .nil, k, k', v, h => by
    simp [SPMap.set, SPMap.lookup, Ne.symm h]
  | .cons ka va rest, k, k', v, h => by
    simp only [SPMap.set]
    by_cases hk : ka = k'
    · subst hk
      simp only [if_pos rfl, SPMap.lookup]
      rw [if_neg (Ne.symm h), if_neg (Ne.symm h)]
    · rw [if_neg hk]
      simp only [SPMap.lookup]
      by_cases hk2 : ka = k
      · simp [hk2]
      · simp [hk2, SPMap.lookup_set_ne rest k k' v h]

theorem SPMap.lookup_set_self : ∀ (m : SPMap) (k : String) (v : SP),
    (m.set k v).lookup k = some v
  | .nil, k, v => by
    simp [SPMap.set, SPMap.lookup]
  | .cons ka va rest, k, v => by
    simp only [SPMap.set]
    by_cases hk : ka = k
    · simp [hk, SPMap.lookup]
    · rw [if_neg hk]
      simp [SPMap.lookup, hk, SPMap.lookup_set_self rest k v]

theorem string_mk_toList (s : String) : String.mk s.toList = s := rfl

theorem headKey_of_no_bracket (name : String)
    (h : name.toList.dropWhile notLB = []) : headKey name = name := by
  unfold headKey
  rw [List.takeWhile_eq_self_iff.mpr (List.dropWhile_eq_nil_iff.mp h)]
  exact string_mk_toList name

theorem setSearchParamJson_eq_set (obj : SPMap) (name v : String) :
    ∃ X, (setSearchParamJson obj name v).1 = obj.set (headKey name) X := by
  cases hd : name.toList.dropWhile notLB with
  | nil =>
    rw [setSearchParamJson_no_bracket obj name v hd]
    exact ⟨.str v, by rw [headKey_of_no_bracket name hd]⟩
  | cons c rest =>
    rw [setSearchParamJson_bracket obj name v c rest hd]
    exact ⟨_, rfl⟩

/-! ## Claim theorems for the bracket-notation mapper -/

/-- C1 (counterexample): folding `items[0]=a, items[1]=b, items[2]=c` into an
empty object — bracketed numeric keys used in exactly increasing order from
0 — produces an object keyed by stringified indices, not an array, and the
result differs from the one produced by the `items[]=` inputs. -/
theorem searchParams_sequential_indices_not_array :
    parseSearchParamsJson [("items[0]", "a"), ("items[1]", "b"), ("items[2]", "c")] =
      .cons "items" (.obj (.cons "0" (.str "a") (.cons "1" (.str "b")
        (.cons "2" (.str "c") .nil)))) .nil
  ∧ parseSearchParamsJson [("items[]", "a"), ("items[]", "b"), ("items[]", "c")] =
      .cons "items" (.arr (.cons (.str "a") (.cons (.str "b")
        (.cons (.str "c") .nil)))) .nil
  ∧ parseSearchParamsJson [("items[0]", "a"), ("items[1]", "b"), ("items[2]", "c")] ≠
      parseSearchParamsJson [("items[]", "a"), ("items[]", "b"), ("items[]", "c")] :=
  ⟨by decide, by decide, by decide⟩

/-- C1 (amended): explicit bracketed numeric keys always produce an object
keyed by the given stringified indices — the strictly increasing-from-zero
order `[0],[1],[2]` yields exactly the same object shape as an out-of-order
use of the same keys; an array arises only from the empty-bracket `[]`
form. -/
theorem searchParams_numeric_brackets_make_objects (a b c : String) :
    parseSearchParamsJson [("items[0]", a), ("items[1]", b), ("items[2]", c)] =
      .cons "items" (.obj (.cons "0" (.str a) (.cons "1" (.str b)
        (.cons "2" (.str c) .nil)))) .nil
  ∧ parseSearchParamsJson [("items[0]", a), ("items[2]", c), ("items[1]", b)] =
      .cons "items" (.obj (.cons "0" (.str a) (.cons "2" (.str c)
        (.cons "1" (.str b) .nil)))) .nil
  ∧ parseSearchParamsJson [("items[]", a), ("items[]", b), ("items[]", c)] =
      .cons "items" (.arr (.cons (.str a) (.cons (.str b)
        (.cons (.str c) .nil)))) .nil :=
  ⟨rfl, rfl, rfl⟩

/-- C4: starting from an empty object, the four assignments
`a[b][c][d]=1, a[b][c][e]=2, a[b][f][]=3, a[b][f][]=4` produce exactly
`{a:{b:{c:{d:"1",e:"2"},f:["3","4"]}}}`. -/
theorem searchParams_nested_structure :
    parseSearchParamsJson
      [("a[b][c][d]", "1"), ("a[b][c][e]", "2"), ("a[b][f][]", "3"), ("a[b][f][]", "4")] =
      .cons "a" (.obj (.cons "b" (.obj
        (.cons "c" (.obj (.cons "d" (.str "1") (.cons "e" (.str "2") .nil)))
        (.cons "f" (.arr (.cons (.str "3") (.cons (.str "4") .nil))) .nil))) .nil)) .nil := by
  decide

/-- C5 (counterexample): the name `a[b]x[c` contains an opening `'['` with no
matching `']'` (the claim-side predicate `hasUnclosedBracket` holds), yet
`setSearchParamJson` returns `true` for it, because the trailing `x[c` lies
after the consecutive bracket chain and is ignored. -/
theorem setSearchParamJson_unmatched_bracket_flag_true :
    hasUnclosedBracket "a[b]x[c".toList = true
  ∧ (setSearchParamJson .nil "a[b]x[c" "v").2 = true :=
  ⟨by decide, by decide⟩

/-- C5 (amended): the returned flag depends only on the name — never on the
target object or the value; a `false` flag implies the name contains an
opening `'['` with no matching `']'` (the converse fails when the unmatched
`'['` lies after the bracket chain); in the degraded case the function does
not throw: it assigns the value under the path of the complete segments,
dropping everything from the unmatched `'['`, as the two concrete degraded
assignments show. -/
theorem setSearchParamJson_flag_characterization :
    (∀ obj obj' : SPMap, ∀ name v v' : String,
      (setSearchParamJson obj name v).2 = (setSearchParamJson obj' name v').2)
  ∧ (∀ (obj : SPMap) (name v : String),
      (setSearchParamJson obj name v).2 = false → hasUnclosedBracket name.toList = true)
  ∧ setSearchParamJson .nil "items[unclosed" "value" =
      (.cons "items" (.str "value") .nil, false)
  ∧ setSearchParamJson .nil "a[b][unclosed" "v" =
      (.cons "a" (.obj (.cons "b" (.str "v") .nil)) .nil, false) := by
  refine ⟨?_, ?_, by decide, by decide⟩
  · intro obj obj' name v v'
    cases hd : name.toList.dropWhile notLB with
    | nil =>
      rw [setSearchParamJson_no_bracket obj name v hd,
        setSearchParamJson_no_bracket obj' name v' hd]
    | cons c rest =>
      rw [setSearchParamJson_bracket obj name v c rest hd,
        setSearchParamJson_bracket obj' name v' c rest hd]
  · intro obj name v hflag
    cases hd : name.toList.dropWhile notLB with
    | nil =>
      rw [setSearchParamJson_no_bracket obj name v hd] at hflag
      cases hflag
    | cons c rest =>
      rw [setSearchParamJson_bracket obj name v c rest hd] at hflag
      have hc : c = '[' := by
        have := dropWhile_head_not notLB name.toList c rest hd
        unfold notLB at this
        simpa using this
      subst hc
      have hres := parseSegs_false_unclosed rest hflag
      have hsplit : name.toList =
          name.toList.takeWhile notLB ++ '[' :: rest := by
        conv_lhs => rw [← List.takeWhile_append_dropWhile (p := notLB) (l := name.toList)]
        rw [hd]
      rw [hsplit]
      exact hasUnclosedBracket_append _ _ hres

/-- C10: `setSearchParamJson` touches at most the one top-level property named
by the head key (the part of the name before its first `'['`, or the whole
name): every other top-level key keeps its exact previous value, and no
top-level key is ever removed. -/
theorem setSearchParamJson_top_level_frame :
    (∀ (obj : SPMap) (name v k : String), k ≠ headKey name →
      (setSearchParamJson obj name v).1.lookup k = obj.lookup k)
  ∧ (∀ (obj : SPMap) (name v k : String),
      (obj.lookup k).isSome = true →
        ((setSearchParamJson obj name v).1.lookup k).isSome = true) := by
  constructor
  · intro obj name v k hk
    obtain ⟨X, hX⟩ := setSearchParamJson_eq_set obj name v
    rw [hX, SPMap.lookup_set_ne obj k (headKey name) X hk]
  · intro obj name v k hsome
    obtain ⟨X, hX⟩ := setSearchParamJson_eq_set obj name v
    rw [hX]
    by_cases hk : k = headKey name
    · subst hk
      rw [SPMap.lookup_set_self]
      rfl
    · rw [SPMap.lookup_set_ne obj k (headKey name) X hk]
      exact hsome

/-- Witness for C5's amended theorem at a concrete degraded name. -/
theorem setSearchParamJson_flag_characterization_witness :
    hasUnclosedBracket "items[unclosed".toList = true :=
  setSearchParamJson_flag_characterization.2.1 .nil "items[unclosed" "value" (by decide)

/-- Witness for C10 at a concrete object and name. -/
theorem setSearchParamJson_top_level_frame_witness :
    ("z" ≠ headKey "items[0]")
  ∧ (setSearchParamJson (.cons "z" (.str "w") .nil) "items[0]" "a").1.lookup "z" =
      (SPMap.cons "z" (.str "w") .nil).lookup "z" :=
  ⟨by decide, setSearchParamJson_top_level_frame.1
    (.cons "z" (.str "w") .nil) "items[0]" "a" "z" (by decide)⟩

end SuperRequest

namespace SuperRequest

/-! ## The percent/plus decoder of `form_url_encoded.ts` -/

/-- The hex-digit arithmetic of `decodeUriComponentInplace` lines 129–130:
`d <= C_NINE ? d - C_ZERO : d <= C_F_CAP ? d - (C_A_CAP - 10) : d - (C_A_LOW - 10)`.
JavaScript subtraction can go negative here, hence `Int`. -/
def jsHexDigitVal (d : Nat) : Int :=
  if d ≤ 57 then (d : Int) - 48
  else if d ≤ 70 then (d : Int) - 55
  else (d : Int) - 87

/-- `buffer[start++] = (d1 << 4) | d2` of line 131: JavaScript shifts and
ors on 32-bit two's complement integers, and the `Uint8Array` store keeps
the low 8 bits. -/
def jsDecodedByte (d1 d2 : Nat) : Nat :=
  (Nat.lor ((jsHexDigitVal d1 * 16).emod 4294967296).toNat
           ((jsHexDigitVal d2).emod 4294967296).toNat) % 256

/-- One fuel unit per loop iteration of `decodeUriComponentInplace` (each
iteration consumes at least one input byte, so `l.length` units always
suffice; the fuel makes the recursion structural). -/
def decodeUriF : Nat → List Nat → List Nat
  | 0, l => l
  | _ + 1, [] => []
  | fuel + 1, c :: rest =>
    if c = 43 then 32 :: decodeUriF fuel rest
    else if c = 37 then
      match rest with
      | d1 :: d2 :: r => jsDecodedByte d1 d2 :: decodeUriF fuel r
      | _ => c :: decodeUriF fuel rest
    else c :: decodeUriF fuel rest

/-- `decodeUriComponentInplace(buffer, start, end)` of `form_url_encoded.ts`
lines 117–138, modelled on the byte span `buffer[start..end)` it rewrites:
`'+'` (43) becomes a space (32); `'%'` (37) with at least two bytes left in
the span consumes them through the hex arithmetic; anything else — including
a `'%'` cut off by the end of the span — is copied through. -/
def decodeUriComponentInplace (l : List Nat) : List Nat := decodeUriF l.length l

/-- Is the byte an ASCII hex digit (`0-9`, `A-F`, `a-f`)? (claim-side) -/
def isHexDigit (d : Nat) : Bool :=
  (48 ≤ d && d ≤ 57) || (65 ≤ d && d ≤ 70) || (97 ≤ d && d ≤ 102)

/-- The value of a valid hex digit byte. (claim-side) -/
def hexVal (d : Nat) : Nat :=
  if d ≤ 57 then d - 48 else if d ≤ 70 then d - 55 else d - 87

/-- Fuelled reference decoder (claim-side). -/
def refDecodeF : Nat → List Nat → List Nat
  | 0, l => l
  | _ + 1, [] => []
  | fuel + 1, c :: rest =>
    if c = 43 then 32 :: refDecodeF fuel rest
    else if c = 37 then
      match rest with
      | d1 :: d2 :: r =>
        if isHexDigit d1 && isHexDigit d2 then
          (16 * hexVal d1 + hexVal d2) :: refDecodeF fuel r
        else c :: refDecodeF fuel rest
      | _ => c :: refDecodeF fuel rest
    else c :: refDecodeF fuel rest

/-- Reference decoder, following the spec's words for C3: `'+'` → space,
a valid `%XX` (hex digits, case-insensitive) → the byte it encodes, and
every malformed percent sequence passed through literally. (claim-side) -/
def refDecode (l : List Nat) : List Nat := refDecodeF l.length l

/-- Fuelled scan for well-placed percent signs. -/
def goodPercentsF : Nat → List Nat → Bool
  | 0, _ => true
  | _ + 1, [] => true
  | fuel + 1, c :: rest =>
    if c = 37 then
      match rest with
      | d1 :: d2 :: r => isHexDigit d1 && isHexDigit d2 && goodPercentsF fuel r
      | _ => true
    else goodPercentsF fuel rest

/-- Every `'%'` of the span is either followed by two hex digits or cut off
by the end of the span. (claim-side) -/
def goodPercents (l : List Nat) : Bool := goodPercentsF l.length l

theorem isHexDigit_lt (d : Nat) (h : isHexDigit d = true) : d < 103 := by
  simp only [isHexDigit, Bool.or_eq_true, Bool.and_eq_true, decide_eq_true_eq] at h
  omega

set_option maxRecDepth 10000 in
theorem jsDecodedByte_eq_hex : ∀ d1, d1 < 103 → ∀ d2, d2 < 103 →
    isHexDigit d1 = true → isHexDigit d2 = true →
    jsDecodedByte d1 d2 = 16 * hexVal d1 + hexVal d2 := by decide

/-- With enough fuel, the three fuelled scans do not depend on the exact
fuel. -/
theorem decodeUriF_stable : ∀ (fuel fuel' : Nat) (l : List Nat),
    l.length ≤ fuel → l.length ≤ fuel' → decodeUriF fuel l = decodeUriF fuel' l := by
  intro fuel
  induction fuel with
  | zero =>
    intro fuel' l h _
    have : l = [] := List.eq_nil_of_length_eq_zero (Nat.le_zero.mp h)
    subst this
    cases fuel' <;> rfl
  | succ n ih =>
    intro fuel' l h h'
    rcases l with _ | ⟨c, rest⟩
    · cases fuel' <;> rfl
    · cases fuel' with
      | zero => simp at h'
      | succ n' =>
        simp only [List.length_cons, Nat.succ_le_succ_iff] at h h'
        simp only [decodeUriF]
        by_cases h43 : c = 43
        · simp [h43, ih n' rest h h']
        · by_cases h37 : c = 37
          · simp only [if_neg h43, if_pos h37]
            rcases rest with _ | ⟨d1, rest2⟩
            · simp [ih n' [] (by simp) (by simp)]
            · rcases rest2 with _ | ⟨d2, r⟩
              · simp [ih n' [d1] (by simpa using h) (by simpa using h')]
              · simp only [List.length_cons] at h h'
                simp [ih n' r (by omega) (by omega)]
          · simp [if_neg h43, if_neg h37, ih n' rest h h']

theorem goodPercentsF_stable : ∀ (fuel fuel' : Nat) (l : List Nat),
    l.length ≤ fuel → l.length ≤ fuel' → goodPercentsF fuel l = goodPercentsF fuel' l := by
  intro fuel
  induction fuel with
  | zero =>
    intro fuel' l h _
    have : l = [] := List.eq_nil_of_length_eq_zero (Nat.le_zero.mp h)
    subst this
    cases fuel' <;> rfl
  | succ n ih =>
    intro fuel' l h h'
    rcases l with _ | ⟨c, rest⟩
    · cases fuel' <;> rfl
    · cases fuel' with
      | zero => simp at h'
      | succ n' =>
        simp only [List.length_cons, Nat.succ_le_succ_iff] at h h'
        simp only [goodPercentsF]
        by_cases h37 : c = 37
        · simp only [if_pos h37]
          rcases rest with _ | ⟨d1, rest2⟩
          · rfl
          · rcases rest2 with _ | ⟨d2, r⟩
            · rfl
            · simp only [List.length_cons] at h h'
              simp [ih n' r (by omega) (by omega)]
        · simp [if_neg h37, ih n' rest h h']

theorem goodPercentsF_nil (n : Nat) : goodPercentsF n [] = true := by
  cases n <;> rfl

theorem goodPercentsF_short_aux (n d : Nat) : goodPercentsF n [d] = true := by
  cases n with
  | zero => rfl
  | succ m =>
    by_cases h : d = 37
    · simp [goodPercentsF, h]
    · simp [goodPercentsF, h, goodPercentsF_nil]

theorem decodeUriF_nil (n : Nat) : decodeUriF n [] = [] := by
  cases n <;> rfl

theorem refDecodeF_nil (n : Nat) : refDecodeF n [] = [] := by
  cases n <;> rfl

theorem decodeF_agrees : ∀ (fuel : Nat) (l : List Nat), l.length ≤ fuel →
    goodPercentsF fuel l = true → decodeUriF fuel l = refDecodeF fuel l := by
  intro fuel
  induction fuel with
  | zero =>
    intro l hl _
    have : l = [] := List.eq_nil_of_length_eq_zero (Nat.le_zero.mp hl)
    subst this
    rfl
  | succ n ih =>
    intro l hl hg
    rcases l with _ | ⟨c, rest⟩
    · rfl
    · simp only [List.length_cons, Nat.succ_le_succ_iff] at hl
      by_cases h43 : c = 43
      · subst h43
        simp only [goodPercentsF, if_neg (by omega : ¬ (43 = 37))] at hg
        simp [decodeUriF, refDecodeF, ih rest hl hg]
      · by_cases h37 : c = 37
        · subst h37
          rcases rest with _ | ⟨d1, rest2⟩
          · simp [decodeUriF, refDecodeF, decodeUriF_nil, refDecodeF_nil]
          · rcases rest2 with _ | ⟨d2, r⟩
            · simp only [decodeUriF, refDecodeF,
                if_neg (by omega : ¬ (37 = 43)), if_pos rfl]
              rw [ih [d1] (by simpa using hl) (goodPercentsF_short_aux n d1)]
            · have hg2 : isHexDigit d1 = true ∧ isHexDigit d2 = true ∧
                  goodPercentsF n r = true := by
                simpa [goodPercentsF, Bool.and_eq_true, and_assoc] using hg
              obtain ⟨hx1, hx2, hgr⟩ := hg2
              simp only [List.length_cons] at hl
              simp only [decodeUriF, refDecodeF,
                if_neg (by omega : ¬ (37 = 43)), if_pos rfl, hx1, hx2,
                Bool.and_self, if_pos rfl]
              rw [jsDecodedByte_eq_hex d1 (isHexDigit_lt d1 hx1) d2 (isHexDigit_lt d2 hx2) hx1 hx2,
                ih r (by omega) hgr]
              simp
        · simp only [goodPercentsF, if_neg h37] at hg
          simp [decodeUriF, refDecodeF, if_neg h43, if_neg h37, ih rest hl hg]

/-! ## Claim theorems for the URL-encoded decoder -/

/-- C3 (counterexample): the span `%zz` (`[37,122,122]`) has a `'%'` whose
following characters are not hex digits; the in-place decoder does not pass
it through literally — it consumes the two bytes and produces the garbage
byte 51 (`'3'`), disagreeing with the reference decoder. -/
theorem decodeUriComponent_nonhex_not_literal :
    decodeUriComponentInplace [37, 122, 122] = [51]
  ∧ refDecode [37, 122, 122] = [37, 122, 122]
  ∧ decodeUriComponentInplace [37, 122, 122] ≠ refDecode [37, 122, 122] :=
  ⟨by decide, by decide, by decide⟩

/-- C3 (amended): on every span in which each `'%'` is either followed by
two hex digits or cut off by the end of the span, the in-place decoder
agrees with the reference decoder — `'+'` becomes a space, every valid
`%XX` (case-insensitive) becomes the byte it encodes, and a `'%'` with
fewer than two bytes after it passes through literally; a `'%'` followed
by two bytes that are not both hex digits is instead consumed by the same
hex arithmetic and yields a garbage byte rather than an error or a literal
pass-through. -/
theorem decodeUriComponent_agrees_reference :
    (∀ l : List Nat, goodPercents l = true →
      decodeUriComponentInplace l = refDecode l)
  ∧ (∀ d1 d2 : Nat, isHexDigit d1 = true → isHexDigit d2 = true →
      decodeUriComponentInplace [37, d1, d2] = [16 * hexVal d1 + hexVal d2])
  ∧ decodeUriComponentInplace [43] = [32]
  ∧ decodeUriComponentInplace [37, 50] = [37, 50]
  ∧ decodeUriComponentInplace [37] = [37] := by
  refine ⟨fun l h => decodeF_agrees l.length l le_rfl h, ?_, by decide, by decide, by decide⟩
  intro d1 d2 h1 h2
  show decodeUriF 3 [37, d1, d2] = _
  simp only [decodeUriF, if_neg (by omega : ¬ ((37 : Nat) = 43)), if_pos rfl]
  rw [jsDecodedByte_eq_hex d1 (isHexDigit_lt d1 h1) d2 (isHexDigit_lt d2 h2) h1 h2]
  rfl

/-- Witness for C3's amended theorem on the concrete span `%20` and the
hex pair `('2','0')`. -/
theorem decodeUriComponent_agrees_reference_witness :
    (goodPercents [37, 50, 48] = true
      ∧ decodeUriComponentInplace [37, 50, 48] = refDecode [37, 50, 48])
  ∧ decodeUriComponentInplace [37, 50, 48] = [16 * hexVal 50 + hexVal 48] :=
  ⟨⟨by decide, decodeUriComponent_agrees_reference.1 [37, 50, 48] (by decide)⟩,
    decodeUriComponent_agrees_reference.2.1 50 48 (by decide) (by decide)⟩

end SuperRequest

namespace SuperRequest

/-! ## `blobSlice` of `super_file.ts`

The slice is backed by a stream whose `read(view)` callback first skips
bytes until `start` and then serves bytes until `end` (lines 99–120).  The
underlying BYOB reader is modelled as delivering `min(capacity, bytes
still available)` bytes per call; `viewLen` is the size of the consumer's
view.  Fuel makes the loops structural; the skip loop advances at least
one byte per iteration, so `s + 2` units always suffice for one `read`. -/

/-- One `read(view)` call of the sliced stream: returns the bytes placed
into the view and the updated `bytesRead` counter. -/
def blobSliceReadF : Nat → List Nat → Nat → Nat → Nat → Nat → List Nat × Nat
  | 0, _, _, _, _, br => ([], br)
  | fuel + 1, data, s, e, viewLen, br =>
    if e ≤ br then ([], br)                                   -- bytesRead >= end: cancel, 0
    else if br < s then                                       -- skip data until "start"
      let k := min (min viewLen (s - br)) (data.length - br)
      if k = 0 then ([], br)                                  -- done while skipping
      else blobSliceReadF fuel data s e viewLen (br + k)
    else                                                      -- read data until "end"
      let k := min (min viewLen (e - br)) (data.length - br)
      if k = 0 then ([], br)                                  -- done
      else ((data.drop br).take k, br + k)

/-- Repeatedly `read` until a call returns no bytes, concatenating the
delivered chunks (what a consumer draining the sliced blob observes). -/
def blobSliceDrainF : Nat → List Nat → Nat → Nat → Nat → Nat → List Nat
  | 0, _, _, _, _, _ => []
  | fuel + 1, data, s, e, viewLen, br =>
    let r := blobSliceReadF (s + 2) data s e viewLen br
    if r.1 = [] then []
    else r.1 ++ blobSliceDrainF fuel data s e viewLen r.2

/-- All bytes produced by the stream of `blobSlice(body, s, e, ·)` for a
body holding `data`. -/
def blobSliceBytes (data : List Nat) (s e viewLen : Nat) : List Nat :=
  blobSliceDrainF (e + 2) data s e viewLen 0

/-- `blobSlice` of `super_file.ts` lines 88–129: `start >= end` short-circuits
to an empty blob **before** the negativity check; a negative `start` or `end`
(with `start < end`) raises the `RangeError`; otherwise the returned blob's
stream serves `data[start..end)` clamped to the available bytes. -/
def blobSlice (data : List Nat) (start stop : Int) (viewLen : Nat) :
    Except String (List Nat) :=
  if start ≥ stop then .ok []
  else if start < 0 ∨ stop < 0 then
    .error "RangeError: This class supports only non-negative start and end"
  else .ok (blobSliceBytes data start.toNat stop.toNat viewLen)

end SuperRequest

namespace SuperRequest

theorem blobSliceReadF_char : ∀ (fuel : Nat) (data : List Nat) (s e v br : Nat),
    0 < v → s - br < fuel → s < e →
    blobSliceReadF fuel data s e v br =
      (if e ≤ br then ([], br)
       else if data.length ≤ max br s then ([], max br (min s data.length))
       else ((data.drop (max br s)).take (min (min v (e - max br s)) (data.length - max br s)),
             max br s + min (min v (e - max br s)) (data.length - max br s))) := by
  intro fuel
  induction fuel with
  | zero => intro data s e v br _ hf _; omega
  | succ n ih =>
    intro data s e v br hv hf hse
    by_cases he : e ≤ br
    · simp [blobSliceReadF, he]
    · by_cases hs : br < s
      · -- skip phase
        have hk0 : min (min v (s - br)) (data.length - br) = 0 ↔ data.length ≤ br := by
          omega
        by_cases hlen : data.length ≤ br
        · -- stream exhausted before the skip could advance
          rw [show blobSliceReadF (n+1) data s e v br = ([], br) by
            simp only [blobSliceReadF, if_neg he, if_pos hs]
            rw [if_pos (hk0.mpr hlen)]]
          rw [if_neg he, if_pos (by omega : data.length ≤ max br s)]
          have : max br (min s data.length) = br := by omega
          rw [this]
        · -- at least one byte skipped, recurse
          have hkpos : 0 < min (min v (s - br)) (data.length - br) := by omega
          rw [show blobSliceReadF (n+1) data s e v br =
              blobSliceReadF n data s e v (br + min (min v (s - br)) (data.length - br)) by
            simp only [blobSliceReadF, if_neg he, if_pos hs]
            rw [if_neg (by omega)]]
          set k0 := min (min v (s - br)) (data.length - br) with hk0def
          have hrec := ih data s e v (br + k0) hv (by omega) hse
          rw [hrec]
          have hb1 : ¬ (e ≤ br + k0) := by omega
          rw [if_neg hb1, if_neg he]
          have hmax : max (br + k0) s = s := by omega
          by_cases hls : data.length ≤ s
          · rw [if_pos (by omega : data.length ≤ max (br + k0) s),
              if_pos (by omega : data.length ≤ max br s)]
            have h1 : max (br + k0) (min s data.length) = max br (min s data.length) := by
              omega
            rw [h1]
          · rw [if_neg (by omega : ¬ data.length ≤ max (br + k0) s),
              if_neg (by omega : ¬ data.length ≤ max br s)]
            have h2 : max (br + k0) s = max br s := by omega
            rw [h2]
      · -- read phase
        have hmax : max br s = br := by omega
        by_cases hlen : data.length ≤ br
        · rw [show blobSliceReadF (n+1) data s e v br = ([], br) by
            simp only [blobSliceReadF, if_neg he, if_neg hs]
            rw [if_pos (by omega)]]
          rw [if_neg he, if_pos (by omega : data.length ≤ max br s)]
          have : max br (min s data.length) = br := by omega
          rw [this]
        · rw [show blobSliceReadF (n+1) data s e v br =
              ((data.drop br).take (min (min v (e - br)) (data.length - br)),
               br + min (min v (e - br)) (data.length - br)) by
            simp only [blobSliceReadF, if_neg he, if_neg hs]
            rw [if_neg (by omega)]]
          rw [if_neg he, if_neg (by omega : ¬ data.length ≤ max br s), hmax]

theorem blobSliceDrainF_char : ∀ (n fuel : Nat) (data : List Nat) (s e v br : Nat),
    0 < v → s < e → e - br ≤ n → n < fuel →
    blobSliceDrainF fuel data s e v br =
      (data.drop (max br s)).take (e - max br s) := by
  intro n
  induction n with
  | zero =>
    intro fuel data s e v br hv hse hn hfuel
    have he : e ≤ br := by omega
    cases fuel with
    | zero => omega
    | succ m =>
      simp only [blobSliceDrainF]
      rw [blobSliceReadF_char (s+2) data s e v br hv (by omega) hse, if_pos he]
      simp only [if_pos rfl]
      have : e - max br s = 0 := by omega
      rw [this]
      simp
  | succ n ih =>
    intro fuel data s e v br hv hse hn hfuel
    cases fuel with
    | zero => omega
    | succ m =>
      simp only [blobSliceDrainF]
      rw [blobSliceReadF_char (s+2) data s e v br hv (by omega) hse]
      by_cases he : e ≤ br
      · rw [if_pos he]
        simp only [if_pos rfl]
        have : e - max br s = 0 := by omega
        rw [this]
        simp
      · rw [if_neg he]
        by_cases hlen : data.length ≤ max br s
        · rw [if_pos hlen]
          simp only [if_pos rfl]
          rw [List.drop_eq_nil_of_le hlen]
          simp
        · rw [if_neg hlen]
          set b := max br s with hbdef
          set k := min (min v (e - b)) (data.length - b) with hkdef
          have hkpos : 0 < k := by omega
          have hchunk : (data.drop b).take k ≠ [] := by
            have hlb : b < data.length := by omega
            have : ((data.drop b).take k).length = k := by
              rw [List.length_take, List.length_drop]
              omega
            intro hc
            rw [hc] at this
            simp at this
            omega
          rw [if_neg (by simpa using hchunk)]
          have hbk : max (b + k) s = b + k := by omega
          have hrec := ih m data s e v (b + k) hv hse (by omega) (by omega)
          rw [hrec, hbk]
          have hdd : data.drop (b + k) = (data.drop b).drop k := by
            rw [List.drop_drop]
          rw [hdd]
          have hsum : e - b = k + (e - (b + k)) := by omega
          rw [show (data.drop b).take (e - b) =
              (data.drop b).take (k + (e - (b + k))) by rw [← hsum]]
          rw [List.take_add]

theorem blobSliceBytes_char (data : List Nat) (s e v : Nat)
    (hv : 0 < v) (hse : s < e) :
    blobSliceBytes data s e v = (data.drop s).take (e - s) := by
  unfold blobSliceBytes
  rw [blobSliceDrainF_char (e + 1) (e + 2) data s e v 0 hv hse (by omega) (by omega)]
  have : max 0 s = s := by omega
  rw [this]

end SuperRequest

namespace SuperRequest

/-! ## Claim theorems for `blobSlice` -/

/-- C9 (counterexample): `slice(-5, -10)` has a negative start index, yet no
`RangeError` is thrown — the `start >= end` check of line 89 runs first and
returns an empty blob; the error does fire for `slice(-5, 10)`. -/
theorem blobSlice_negative_start_no_throw :
    blobSlice [10, 11, 12] (-5) (-10) 4 = .ok []
  ∧ blobSlice [10, 11, 12] (-5) 10 4 =
      .error "RangeError: This class supports only non-negative start and end" :=
  ⟨rfl, rfl⟩

/-- C9 (amended): a negative `start` (or `end`) raises the `RangeError` only
when `start < end` — `start >= end` short-circuits to an empty blob first;
for non-negative indices the range is clamped to the available data (an
`end` past the data yields the bytes up to end-of-stream, a `start` at or
past the data yields an empty result), and a slice of a slice composes by
the same rules. -/
theorem blobSlice_clamps_and_rejects :
    (∀ (data : List Nat) (start stop : Int) (v : Nat),
      start < stop → start < 0 ∨ stop < 0 →
      blobSlice data start stop v =
        .error "RangeError: This class supports only non-negative start and end")
  ∧ (∀ (data : List Nat) (start stop : Int) (v : Nat), stop ≤ start →
      blobSlice data start stop v = .ok [])
  ∧ (∀ (data : List Nat) (s e v : Nat), 0 < v →
      blobSlice data (s : Int) (e : Int) v = .ok ((data.drop s).take (e - s)))
  ∧ (∀ (data : List Nat) (s1 e1 s2 e2 v : Nat), 0 < v →
      (blobSlice data (s1 : Int) (e1 : Int) v).bind
          (fun l => blobSlice l (s2 : Int) (e2 : Int) v) =
        .ok ((((data.drop s1).take (e1 - s1)).drop s2).take (e2 - s2))) := by
  have hok : ∀ (data : List Nat) (s e v : Nat), 0 < v →
      blobSlice data (s : Int) (e : Int) v = .ok ((data.drop s).take (e - s)) := by
    intro data s e v hv
    unfold blobSlice
    by_cases hse : (s : Int) ≥ (e : Int)
    · rw [if_pos hse]
      have : e - s = 0 := by omega
      rw [this]
      simp
    · rw [if_neg hse, if_neg (by omega)]
      simp only [Int.toNat_natCast]
      rw [blobSliceBytes_char data s e v hv (by omega)]
  refine ⟨?_, ?_, hok, ?_⟩
  · intro data start stop v hlt hneg
    unfold blobSlice
    rw [if_neg (by omega), if_pos hneg]
  · intro data start stop v hle
    unfold blobSlice
    rw [if_pos (by omega)]
  · intro data s1 e1 s2 e2 v hv
    rw [hok data s1 e1 v hv]
    simp only [Except.bind]
    rw [hok _ s2 e2 v hv]

/-- Witness for C9's amended theorem at concrete slices of `"Hello World"`
(the byte values 72..100 stand in for the characters). -/
theorem blobSlice_clamps_and_rejects_witness :
    blobSlice [1, 2, 3, 4, 5] (-5) 10 7 =
      .error "RangeError: This class supports only non-negative start and end"
  ∧ blobSlice [1, 2, 3, 4, 5] 10 5 7 = .ok []
  ∧ blobSlice [1, 2, 3, 4, 5] (2 : Nat) (100 : Nat) 7 = .ok [3, 4, 5]
  ∧ (blobSlice [1, 2, 3, 4, 5] (0 : Nat) (4 : Nat) 7).bind
      (fun l => blobSlice l (1 : Nat) (3 : Nat) 7) = .ok [2, 3] :=
  ⟨blobSlice_clamps_and_rejects.1 [1, 2, 3, 4, 5] (-5) 10 7 (by omega) (by omega),
   blobSlice_clamps_and_rejects.2.1 [1, 2, 3, 4, 5] 10 5 7 (by omega),
   by have := blobSlice_clamps_and_rejects.2.2.1 [1, 2, 3, 4, 5] 2 100 7 (by omega)
      simpa using this,
   by have := blobSlice_clamps_and_rejects.2.2.2 [1, 2, 3, 4, 5] 0 4 1 3 7 (by omega)
      simpa using this⟩

end SuperRequest

namespace SuperRequest

/-! ## The multipart/form-data streaming parser (`form_data.ts`)

The parser is modelled as an executable machine.  `MSt.buf` holds the
contents of the working buffer positions `[0, bufferEnd)` (so
`bufferEnd = buf.length`); `bufStart` is the `bufferStart` cursor; the
remaining input is a list of chunks delivered by the BYOB reader, each
`read` taking at most the free capacity of the owning array and at most
the head chunk.  Loops carry explicit fuel and report `outOfFuel` when it
runs out (the TypeScript counterparts simply keep looping); all other
error constructors correspond one-to-one to the `throw` sites. -/

def BUFFER_LEN : Nat := 32768
def MAX_BOUNDARY_LEN : Nat := 100
def MAX_DECORATOR_LEN : Nat := 100

/-- Errors thrown inside the parse loops. -/
inductive IErr where
  | incompleteBody             -- 'Incomplete multipart body'
  | headerTooLong              -- 'Header is too long'
  | invalidHeader              -- 'Invalid header'
  | invalidContentDisposition  -- 'Invalid Content-Disposition header'
  | invalidMultipartBody       -- 'Invalid multipart body'
  | dataAfterEof               -- 'Invalid data after end of multipart body'
  | outOfFuel                  -- fuel exhausted (modelling artefact)
deriving DecidableEq, Repr

/-- Errors of the part-producing main loop. -/
inductive MLErr where
  | fileNotConsumed            -- 'Please, read the whole file stream, or
                               --  cancel it, before reading next form field'
  | inner : IErr → MLErr
deriving DecidableEq, Repr

/-- Errors of the whole generator. -/
inductive MPErr where
  | invalidBoundary            -- 'Invalid boundary'
  | main : MLErr → MPErr
deriving DecidableEq, Repr

/-- `buffer.subarray(a, b)` as a byte list. -/
def listSlice (l : List Nat) (a b : Nat) : List Nat := (l.drop a).take (b - a)

/-- `buffer[i]` (`undefined` when out of range). -/
def listGet (l : List Nat) (i : Nat) : Option Nat := l.get? i

/-- Does `needle` occur at position `i` (the inner loop of `bufferIndexOf`)? -/
def needleAt (buf : List Nat) (i : Nat) (needle : List Nat) : Bool :=
  decide (listSlice buf i (i + needle.length) = needle)

def bufferIndexOfAux (buf needle : List Nat) : Nat → Nat → Option Nat
  | 0, _ => none
  | cnt + 1, i => if needleAt buf i needle then some i else bufferIndexOfAux buf needle cnt (i + 1)

/-- `bufferIndexOf(haystack, haystackStart, haystackEnd, needle)` of lines
374–389: first occurrence of `needle` starting in
`[haystackStart, haystackEnd - needle.length]`. -/
def bufferIndexOf (buf : List Nat) (haystackStart : Nat) (haystackEnd : Int)
    (needle : List Nat) : Option Nat :=
  let hEnd : Int := haystackEnd - needle.length
  if hEnd < haystackStart then none
  else bufferIndexOfAux buf needle (hEnd.toNat - haystackStart + 1) haystackStart

def bufferIndexOfNlAux (buf needle : List Nat) : Nat → Nat → Option Nat
  | 0, _ => none
  | cnt + 1, i =>
    if listGet buf i = some 13 ∧ listGet buf (i + 1) = some 10 ∧
        needleAt buf (i - needle.length) needle = true
    then some (i - needle.length)
    else bufferIndexOfNlAux buf needle cnt (i + 1)

/-- `bufferIndexOfNl` of lines 391–406: the needle immediately followed by
CRLF, scanning CRLF positions `needle.length .. haystackLen-2`. -/
def bufferIndexOfNl (buf : List Nat) (haystackLen : Nat) (needle : List Nat) : Option Nat :=
  if haystackLen < needle.length + 2 then none
  else bufferIndexOfNlAux buf needle (haystackLen - 2 - needle.length + 1) needle.length

def scanOneOf3Aux (b0 b1 b2 : Nat) : List Nat → Nat → Nat → Option Nat
  | _, _, 0 => none
  | [], _, _ => none
  | c :: t, i, r + 1 =>
    if c = b0 ∨ c = b1 ∨ c = b2 then some i else scanOneOf3Aux b0 b1 b2 t (i + 1) r

/-- `bufferIndexOfOneOf3` of lines 408–417. -/
def bufferIndexOfOneOf3 (buf : List Nat) (start e : Nat) (b0 b1 b2 : Nat) : Option Nat :=
  scanOneOf3Aux b0 b1 b2 (buf.drop start) start (e - start)

def scanByteAux (b : Nat) : List Nat → Nat → Nat → Option Nat
  | _, _, 0 => none
  | [], _, _ => none
  | c :: t, i, r + 1 => if c = b then some i else scanByteAux b t (i + 1) r

/-- `buffer.subarray(0, e).indexOf(b, start)`. -/
def bufferIndexOfByte (buf : List Nat) (start e : Nat) (b : Nat) : Option Nat :=
  scanByteAux b (buf.drop start) start (e - start)

def lastIndexOfByte (b : Nat) : List Nat → Option Nat
  | [] => none
  | c :: t =>
    match lastIndexOfByte b t with
    | some j => some (j + 1)
    | none => if c = b then some 0 else none

/-- Space, CR, LF and TAB (`bufferTrim`'s whitespace set). -/
def isWsByte (c : Nat) : Bool := c = 32 ∨ c = 13 ∨ c = 10 ∨ c = 9

/-- `bufferTrim` of lines 419–430. -/
def bufferTrim (l : List Nat) : List Nat :=
  ((l.dropWhile isWsByte).reverse.dropWhile isWsByte).reverse

/-- ASCII lower-casing of `headerName.toLowerCase()`. -/
def toLowerByte (c : Nat) : Nat := if 65 ≤ c ∧ c ≤ 90 then c + 32 else c

/-- One pass of `.replaceAll(pair, repl)` over bytes (leftmost,
non-overlapping), fuelled. -/
def replacePairF (a b r : Nat) : Nat → List Nat → List Nat
  | 0, l => l
  | _ + 1, [] => []
  | fuel + 1, c :: t =>
    if c = a then
      match t with
      | d :: t' =>
        if d = b then r :: replacePairF a b r fuel t'
        else c :: replacePairF a b r fuel t
      | [] => [c]
    else c :: replacePairF a b r fuel t

/-- `.replaceAll('\\"', '"').replaceAll('\\\\', '\\')` of lines 346/349. -/
def jsUnescapeQuoted (l : List Nat) : List Nat :=
  let l1 := replacePairF 92 34 34 l.length l
  replacePairF 92 92 92 l1.length l1

def strToBytes (s : String) : List Nat := s.toList.map Char.toNat

end SuperRequest

namespace SuperRequest

/-- Machine state: working-buffer contents `[0, bufferEnd)`, the
`bufferStart` cursor, and the chunks still to be delivered by the reader. -/
structure MSt where
  buf : List Nat
  bufStart : Nat
  chunks : List (List Nat)
deriving DecidableEq, Repr

/-- One BYOB `reader.read(target)`: deliver up to `cap` bytes out of the
head chunk; `none` means the stream reported `done`. -/
def streamRead (chunks : List (List Nat)) (cap : Nat) :
    Option (List Nat × List (List Nat)) :=
  match chunks with
  | [] => none
  | c :: rest =>
    let k := min cap c.length
    some (c.take k, if k = c.length then rest else c.drop k :: rest)

/-- The `read()` helper of lines 50–56: read into the free space of the
owning array (`arrLen` bytes long), appending at `bufferEnd`; a `done`
stream mid-parse throws `'Incomplete multipart body'`. -/
def mpRead (arrLen : Nat) (st : MSt) : Except IErr MSt :=
  match streamRead st.chunks (arrLen - st.buf.length) with
  | none => .error .incompleteBody
  | some (bytes, rest) => .ok { st with buf := st.buf ++ bytes, chunks := rest }

/-- The preamble-skipping loop of lines 75–89. -/
def preambleF (boundary : List Nat) : Nat → MSt → Except IErr MSt
  | 0, _ => .error .outOfFuel
  | fuel + 1, st =>
    match mpRead BUFFER_LEN st with
    | .error e => .error e
    | .ok st =>
      match bufferIndexOfNl st.buf st.buf.length boundary with
      | some i => .ok { st with bufStart := i + boundary.length + 2 }
      | none =>
        let i : Int := (st.buf.length : Int) - boundary.length - 1
        let st := if i > 0 then { st with buf := st.buf.drop i.toNat } else st
        preambleF boundary fuel st

/-- The two header states of the line scanner (`State` of lines 58–61). -/
inductive HState where
  | header
  | headerValue
deriving DecidableEq, Repr

/-- Step 1 of the main loop (lines 92–110): find the next `':'`/CR/LF (in
`header` state) or CR (in `headerValue` state), compacting the buffer and
reading more data as needed. -/
def scanHeaderDelimF (state : HState) : Nat → MSt → Nat → Except IErr (MSt × Nat)
  | 0, _, _ => .error .outOfFuel
  | fuel + 1, st, i =>
    let r := match state with
      | .header => bufferIndexOfOneOf3 st.buf i st.buf.length 58 13 10
      | .headerValue => bufferIndexOfByte st.buf i st.buf.length 13
    match r with
    | some j => .ok (st, j)
    | none =>
      if (st.buf.length - st.bufStart) * 2 > BUFFER_LEN then
        if st.bufStart = 0 then .error .headerTooLong
        else
          let st := { st with buf := st.buf.drop st.bufStart, bufStart := 0 }
          let i := st.buf.length
          match mpRead BUFFER_LEN st with
          | .error e => .error e
          | .ok st => scanHeaderDelimF state fuel st i
      else
        let i := st.buf.length
        match mpRead BUFFER_LEN st with
        | .error e => .error e
        | .ok st => scanHeaderDelimF state fuel st i

/-- `i++; if (i >= bufferEnd) reset-and-read; if (buffer[i] !== LF) throw;
i++; bufferStart = i` — the CRLF completion of lines 129–138 and 358–367;
`i` is at the CR. -/
def expectLf (st : MSt) (i : Nat) : Except IErr MSt :=
  let i := i + 1
  if i ≥ st.buf.length then
    match mpRead BUFFER_LEN { st with buf := [], bufStart := 0 } with
    | .error e => .error e
    | .ok st2 =>
      if listGet st2.buf 0 = some 10 then .ok { st2 with bufStart := 1 }
      else .error .invalidHeader
  else
    if listGet st.buf i = some 10 then .ok { st with bufStart := i + 1 }
    else .error .invalidHeader

/-- `while (buffer[++i2] === C_SPACE);` of line 327. -/
def skipSpacesAux : List Nat → Nat → Nat
  | [], i => i
  | c :: t, i => if c = 32 then skipSpacesAux t (i + 1) else i

def skipSpacesFrom (buf : List Nat) (i : Nat) : Nat :=
  skipSpacesAux (buf.drop (i + 1)) (i + 1)

/-- The backslash-skipping re-scan of lines 339–341: while the byte before
the found quote is `'\'`, look for the next quote. -/
def quoteEndF (buf : List Nat) (lineEnd : Nat) : Nat → Option Nat → Except IErr (Option Nat)
  | 0, _ => .error .outOfFuel
  | fuel + 1, r =>
    match r with
    | none => .ok none
    | some i3 =>
      if 0 < i3 ∧ listGet buf (i3 - 1) = some 92 then
        quoteEndF buf lineEnd fuel (bufferIndexOfByte buf (i3 + 1) lineEnd 34)
      else .ok (some i3)

/-- The `Content-Disposition` parameter loop of lines 326–352, extracting
the quoted `name` and `filename` values. -/
def cdParseF (buf : List Nat) (lineEnd : Nat) :
    Nat → Nat → List Nat → List Nat → Except IErr (List Nat × List Nat)
  | 0, _, _, _ => .error .outOfFuel
  | fuel + 1, i2, nm, fn =>
    let i2 := skipSpacesFrom buf i2
    match bufferIndexOfByte buf i2 lineEnd 61 with
    | none => .ok (nm, fn)
    | some i3 =>
      let field := listSlice buf i2 i3
      let i2 := i3 + 1
      if listGet buf i2 ≠ some 34 then .ok (nm, fn)
      else
        let i2 := i2 + 1
        match quoteEndF buf lineEnd (lineEnd + 2) (bufferIndexOfByte buf i2 lineEnd 34) with
        | .error e => .error e
        | .ok none => .ok (nm, fn)
        | .ok (some i3) =>
          let nm' := if field = strToBytes "name"
            then jsUnescapeQuoted (listSlice buf i2 i3) else nm
          let fn' := if field ≠ strToBytes "name" ∧ field = strToBytes "filename"
            then jsUnescapeQuoted (listSlice buf i2 i3) else fn
          cdParseF buf lineEnd fuel (i3 + 1) nm' fn'

end SuperRequest

namespace SuperRequest

/-- The per-body closure state of lines 142–145: `i` (-1 until a boundary
was found), `scanFrom`, `lastPart` and `expectedEof`. -/
structure BSt where
  bi : Int
  scanFrom : Nat
  lastPart : List Nat
  expectedEof : Bool
deriving DecidableEq, Repr

/-- The `view` argument of `readFieldPart`: absent for ordinary fields,
a consumer-supplied view (of the given length) for file-stream reads, and
the parser's own buffer when the file stream's `cancel()` drains it. -/
inductive ViewArg where
  | noView
  | consumer (len : Nat)
  | selfBuffer
deriving DecidableEq, Repr

def ViewArg.len : ViewArg → Nat
  | .noView => 0
  | .consumer n => n
  | .selfBuffer => BUFFER_LEN

/-- Is the view an array distinct from the parser's buffer while
`useBuffer` is still the parser's buffer (`useBuffer != view`)? -/
def viewIsOther (view : ViewArg) (usingView : Bool) : Bool :=
  match view with
  | .consumer _ => !usingView
  | _ => false

/-- The scanning loop of `readFieldPart` (lines 165–240).  `usingView`
records whether `useBuffer` has been switched to the consumer's view (in
which case `st.buf` holds that view's contents and its capacity applies). -/
def readFieldPartLoopF (boundary : List Nat) (view : ViewArg) :
    Nat → MSt → BSt → Bool → Except IErr (List Nat × MSt × BSt)
  | 0, _, _, _ => .error .outOfFuel
  | fuel + 1, st, b, usingView =>
    let useLen := if usingView then view.len else BUFFER_LEN
    match bufferIndexOf st.buf b.scanFrom ((st.buf.length : Int) - 2) boundary with
    | some i =>
      -- boundary found (lines 168–192)
      let scanDecoratorFrom := max st.bufStart (b.scanFrom - MAX_DECORATOR_LEN)
      match lastIndexOfByte 13 (listSlice st.buf scanDecoratorFrom i) with
      | none => .error .invalidMultipartBody
      | some rel =>
        let endField := rel + scanDecoratorFrom
        let expectedEof := decide (listGet st.buf (i + boundary.length) = some 45) &&
                           decide (listGet st.buf (i + boundary.length + 1) = some 45)
        let result := listSlice st.buf st.bufStart endField
        let bufStart' := i + boundary.length + 2
        let b' := { b with bi := (i : Int), expectedEof := expectedEof }
        if view = .noView then
          .ok (result, { st with bufStart := bufStart' }, b')
        else if viewIsOther view usingView then
          if result.length > view.len then
            .ok (result.take view.len, { st with bufStart := bufStart' },
                 { b' with lastPart := result.drop view.len })
          else
            .ok (result, { st with bufStart := bufStart' }, b')
        else
          -- useBuffer == view: copy the live bytes back into the parser buffer
          .ok (result, { st with buf := st.buf.drop bufStart', bufStart := 0 }, b')
    | none =>
      -- not found (lines 194–239)
      let scanFrom' := max st.bufStart (((st.buf.length : Int) - 2 - boundary.length).toNat)
      let canReturnTo : Int := (scanFrom' : Int) - MAX_DECORATOR_LEN
      if view ≠ .noView ∧ canReturnTo - st.bufStart ≥ view.len then
        -- the buffered data can fill the whole view: return without reading
        let toPos := min canReturnTo.toNat (st.bufStart + view.len)
        let result := listSlice st.buf st.bufStart toPos
        if viewIsOther view usingView then
          .ok (result, { st with bufStart := toPos }, { b with scanFrom := scanFrom' })
        else
          .ok (result, { st with buf := st.buf.drop toPos, bufStart := 0 },
               { b with scanFrom := scanFrom' })
      else
        let needCompact := st.bufStart * 2 > useLen
        let canReturnHalf := ¬ needCompact ∧
          (canReturnTo - st.bufStart) * 2 ≥ useLen
        if needCompact then
          -- move the live bytes to the beginning of the buffer
          let oldStart := st.bufStart
          let st := { st with buf := st.buf.drop oldStart, bufStart := 0 }
          let scanFrom'' := scanFrom' - oldStart
          -- maybe switch useBuffer to the view, then read
          if viewIsOther view usingView then
            let st := { st with buf := st.buf.drop st.bufStart, bufStart := 0 }
            match mpRead view.len st with
            | .error e => .error e
            | .ok st =>
              readFieldPartLoopF boundary view fuel st { b with scanFrom := scanFrom'' } true
          else
            match mpRead useLen st with
            | .error e => .error e
            | .ok st =>
              readFieldPartLoopF boundary view fuel st { b with scanFrom := scanFrom'' } usingView
        else if canReturnHalf then
          -- the live data exceeds half the buffer: return it without reading
          let result := listSlice st.buf st.bufStart canReturnTo.toNat
          if viewIsOther view usingView then
            .ok (result, { st with bufStart := canReturnTo.toNat },
                 { b with scanFrom := scanFrom' })
          else
            .ok (result, { st with buf := st.buf.drop canReturnTo.toNat, bufStart := 0 },
                 { b with scanFrom := scanFrom' })
        else
          if viewIsOther view usingView then
            let oldStart := st.bufStart
            let st := { st with buf := st.buf.drop oldStart, bufStart := 0 }
            match mpRead view.len st with
            | .error e => .error e
            | .ok st =>
              readFieldPartLoopF boundary view fuel st
                { b with scanFrom := scanFrom' - oldStart } true
          else
            match mpRead useLen st with
            | .error e => .error e
            | .ok st =>
              readFieldPartLoopF boundary view fuel st { b with scanFrom := scanFrom' } usingView

/-- `readFieldPart(view?)` of lines 151–241: once the boundary has been
found (`i != -1`), serve the split-off `lastPart`; otherwise run the
scanning loop (with `useBuffer` starting as the parser's buffer). -/
def readFieldPartF (boundary : List Nat) (view : ViewArg) (fuel : Nat)
    (st : MSt) (b : BSt) : Except IErr (List Nat × MSt × BSt) :=
  if b.bi ≠ -1 then
    match view with
    | .noView => .ok (b.lastPart, st, { b with lastPart := [] })
    | _ =>
      let result := b.lastPart.take (min b.lastPart.length view.len)
      .ok (result, st, { b with lastPart := b.lastPart.drop result.length })
  else
    readFieldPartLoopF boundary view fuel st b false

/-- Call `readFieldPart` until it returns an empty part, concatenating the
parts: the field-value loop of lines 247–254 (`view = noView`), the
consumer draining a file stream (`view = consumer len`), and the
`cancel()` loop of lines 282–286 (`view = selfBuffer`). -/
def drainPartF (boundary : List Nat) (view : ViewArg) :
    Nat → MSt → BSt → List Nat → Except IErr (List Nat × MSt × BSt)
  | 0, _, _, _ => .error .outOfFuel
  | fuel + 1, st, b, acc =>
    match readFieldPartF boundary view (fuel + 1) st b with
    | .error e => .error e
    | .ok (part, st, b) =>
      if part = [] then .ok (acc, st, b)
      else drainPartF boundary view fuel st b (acc ++ part)

/-- The trailing-whitespace check after the closing boundary
(lines 301–316): drain the rest of the buffer, then the rest of the
stream (read in buffer-sized pieces), accepting only CR, LF, space and
tab; any other byte is `'Invalid data after end of multipart body'`. -/
def epilogueF : Nat → List Nat → List (List Nat) → Except IErr Unit
  | 0, _, _ => .error .outOfFuel
  | _ + 1, tail, [] =>
    if tail.all isWsByte then .ok () else .error .dataAfterEof
  | fuel + 1, tail, c :: rest =>
    if tail.all isWsByte then
      let k := min BUFFER_LEN c.length
      epilogueF fuel (c.take k) (if k = c.length then rest else c.drop k :: rest)
    else .error .dataAfterEof

end SuperRequest

namespace SuperRequest

/-- What the consumer does with a yielded file entry before advancing the
generator: drain its stream through views of the given length, call
`cancel()` on it, or advance without doing either. -/
inductive FileAction where
  | drain (viewLen : Nat)
  | cancel
  | skip
deriving DecidableEq, Repr

/-- A yielded form-data entry; a file's `payload` is `some bytes` when the
consumer drained the stream and `none` when it cancelled it. -/
inductive FdEntry where
  | field (name value : List Nat)
  | file (name filename contentTypeFull : List Nat) (payload : Option (List Nat))
deriving DecidableEq, Repr

/-- The main parser loop of lines 91–371, driven by the consumer `script`
(one `FileAction` per file part; an exhausted script drains with 64 KiB
views).  Produces the yielded entries in order. -/
def mainLoopF (boundary : List Nat) :
    Nat → MSt → HState → List Nat → List Nat → List Nat → List Nat →
    List FileAction → List FdEntry → Except MLErr (List FdEntry)
  | 0, _, _, _, _, _, _, _, _ => .error (.inner .outOfFuel)
  | fuel + 1, st, state, headerName, name, filename, contentTypeFull, script, acc =>
    match scanHeaderDelimF state (fuel + 1) st st.bufStart with
    | .error e => .error (.inner e)
    | .ok (st, i) =>
      match state with
      | .header =>
        if i ≠ st.bufStart then
          -- a header name runs up to ':' (lines 114–122)
          if listGet st.buf i ≠ some 58 then .error (.inner .invalidHeader)
          else
            let headerName := (bufferTrim (listSlice st.buf st.bufStart i)).map toLowerByte
            mainLoopF boundary fuel { st with bufStart := i + 1 } .headerValue
              headerName name filename contentTypeFull script acc
        else
          -- an empty line terminates the headers (lines 124–139)
          if listGet st.buf i ≠ some 13 then .error (.inner .invalidHeader)
          else
            match expectLf st i with
            | .error e => .error (.inner e)
            | .ok st =>
              -- read the part body (lines 141–316)
              let b : BSt := { bi := -1, scanFrom := st.bufStart,
                               lastPart := [], expectedEof := false }
              let afterBody := fun (st : MSt) (b : BSt) (entry : FdEntry)
                  (script : List FileAction) =>
                let acc := entry :: acc
                if b.expectedEof then
                  match epilogueF (fuel + 1) (listSlice st.buf st.bufStart st.buf.length)
                      st.chunks with
                  | .error e => .error (.inner e)
                  | .ok _ => .ok acc.reverse
                else
                  mainLoopF boundary fuel st .header [] [] [] [] script acc
              if filename = [] then
                -- ordinary field (lines 243–259)
                match drainPartF boundary .noView (fuel + 1) st b [] with
                | .error e => .error (.inner e)
                | .ok (value, st, b) => afterBody st b (.field name value) script
              else
                -- uploaded file (lines 261–297)
                let action := script.headD (.drain 65536)
                let script := script.tail
                match action with
                | .skip =>
                  -- the consumer advanced without draining: `readComplete`
                  -- is still false at the next advance (lines 294–296)
                  .error .fileNotConsumed
                | .drain viewLen =>
                  match drainPartF boundary (.consumer viewLen) (fuel + 1) st b [] with
                  | .error e => .error (.inner e)
                  | .ok (payload, st, b) =>
                    afterBody st b (.file name filename contentTypeFull (some payload)) script
                | .cancel =>
                  match drainPartF boundary .selfBuffer (fuel + 1) st b [] with
                  | .error e => .error (.inner e)
                  | .ok (_, st, b) =>
                    afterBody st b (.file name filename contentTypeFull none) script
      | .headerValue =>
        -- a header value runs up to CR (lines 319–369)
        let next := fun (st : MSt) (name filename contentTypeFull : List Nat) =>
          match expectLf st i with
          | .error e => .error (MLErr.inner e)
          | .ok st =>
            mainLoopF boundary fuel st .header [] name filename contentTypeFull script acc
        if headerName = strToBytes "content-disposition" then
          match bufferIndexOfByte st.buf st.bufStart i 59 with
          | none => .error (.inner .invalidContentDisposition)
          | some i2 =>
            match cdParseF st.buf i (i + 2) i2 name filename with
            | .error e => .error (.inner e)
            | .ok (name, filename) => next st name filename contentTypeFull
        else if headerName = strToBytes "content-type" then
          next st name filename (bufferTrim (listSlice st.buf st.bufStart i))
        else
          next st name filename contentTypeFull

/-- `parseFormData(body, charset, boundary)` of lines 25–372: validate the
boundary, skip the preamble, then run the part loop.  The consumer's
behaviour towards file streams is supplied as `script`; text decoding is
the identity on bytes (names/values stay byte lists). -/
def parseFormData (boundary : List Nat) (chunks : List (List Nat))
    (script : List FileAction) (fuel : Nat) : Except MPErr (List FdEntry) :=
  if boundary.length = 0 ∨ boundary.length > MAX_BOUNDARY_LEN then
    .error .invalidBoundary
  else
    match preambleF boundary fuel { buf := [], bufStart := 0, chunks := chunks } with
    | .error e => .error (.main (.inner e))
    | .ok st =>
      match mainLoopF boundary fuel st .header [] [] [] [] script [] with
      | .error e => .error (.main e)
      | .ok entries => .ok entries

/-- Split a byte list into chunks of `k` bytes (the `createChunkedStream`
helper of the test corpus). -/
def chunksOfF : Nat → Nat → List Nat → List (List Nat)
  | 0, _, _ => []
  | _, _, [] => []
  | fuel + 1, k, l => l.take k :: chunksOfF fuel k (l.drop k)

def chunksOf (k : Nat) (l : List Nat) : List (List Nat) := chunksOfF l.length k l

end SuperRequest

namespace SuperRequest

/-! ## Claim theorems for the multipart parser -/

/-- The boundary of the spec's multipart test corpus. -/
def mpBoundary : List Nat := strToBytes "----boundary"

/-- The two-field multipart body of the spec's test corpus. -/
def mpCorpus : List Nat :=
  strToBytes ("------boundary\r\nContent-Disposition: form-data; name=\"field1\"\r\n\r\n" ++
    "value1\r\n------boundary\r\nContent-Disposition: form-data; name=\"field2\"\r\n\r\n" ++
    "value2\r\n------boundary--")

/-- The entries the corpus must produce. -/
def mpCorpusExpected : Except MPErr (List FdEntry) :=
  .ok [.field (strToBytes "field1") (strToBytes "value1"),
       .field (strToBytes "field2") (strToBytes "value2")]

/-- A body (for the 1-byte boundary `b`) whose part payload contains the
boundary token with no CR in the 100 bytes before it, but a CR further
back: the CR-lookback window (`MAX_DECORATOR_LEN`) then depends on how far
`scanFrom` advanced during earlier failed scans, which depends on the
chunking. -/
def mpChunkCx : List Nat :=
  strToBytes ("b\r\n\r\nhello\r" ++ String.mk (List.replicate 150 'a') ++ "b\r\n\r\nv\r\nb--")

set_option maxRecDepth 1000000 in
/-- C2 (counterexample): the same multipart body bytes, with the valid
1-byte boundary `b`, parse successfully when delivered as one chunk but
fail with `'Invalid multipart body'` when delivered one byte at a time —
the yielded entries are not chunking-independent for every body. -/
theorem parseFormData_chunking_dependent :
    (chunksOf 1 mpChunkCx).flatten = mpChunkCx
  ∧ parseFormData (strToBytes "b") [mpChunkCx] [] 4000 =
      .ok [.field [] (strToBytes "hello"), .field [] (strToBytes "v")]
  ∧ parseFormData (strToBytes "b") (chunksOf 1 mpChunkCx) [] 4000 =
      .error (.main (.inner .invalidMultipartBody))
  ∧ parseFormData (strToBytes "b") [mpChunkCx] [] 4000 ≠
      parseFormData (strToBytes "b") (chunksOf 1 mpChunkCx) [] 4000 :=
  ⟨by decide, by decide, by decide, by decide⟩

set_option maxRecDepth 1000000 in
/-- C2 (amended): chunk-size independence as the spec's testable property
states it — the two-field corpus with boundary `----boundary` yields
`[{field1,value1},{field2,value2}]` delivered in one chunk, and
identically for every chunk size in 1,2,3,4,5,9,10,11,20,30,50; full
independence for arbitrary bodies fails (see the counterexample). -/
theorem parseFormData_corpus_chunk_independent :
    parseFormData mpBoundary [mpCorpus] [] 4000 = mpCorpusExpected
  ∧ ∀ k ∈ ([1, 2, 3, 4, 5, 9, 10, 11, 20, 30, 50] : List Nat),
      parseFormData mpBoundary (chunksOf k mpCorpus) [] 4000 = mpCorpusExpected :=
  ⟨by decide, by decide⟩

set_option maxRecDepth 1000000 in
/-- Witness for C2's amended theorem at chunk size 3. -/
theorem parseFormData_corpus_chunk_independent_witness :
    parseFormData mpBoundary (chunksOf 3 mpCorpus) [] 4000 = mpCorpusExpected :=
  parseFormData_corpus_chunk_independent.2 3 (by decide)

theorem epilogueF_char : ∀ (fuel : Nat) (tail : List Nat) (chunks : List (List Nat)),
    chunks.length + (chunks.map List.length).sum < fuel →
    epilogueF fuel tail chunks =
      (if (tail ++ chunks.flatten).all isWsByte then .ok () else .error .dataAfterEof) := by
  intro fuel
  induction fuel with
  | zero => intro tail chunks h; omega
  | succ n ih =>
    intro tail chunks h
    by_cases ht : tail.all isWsByte
    · cases chunks with
      | nil => simp [epilogueF, ht]
      | cons c rest =>
        simp only [List.length_cons, List.map_cons, List.sum_cons] at h
        simp only [epilogueF, if_pos ht]
        rw [ih (c.take (min BUFFER_LEN c.length))
          (if min BUFFER_LEN c.length = c.length then rest
           else c.drop (min BUFFER_LEN c.length) :: rest)
          (by
            by_cases hk : min BUFFER_LEN c.length = c.length
            · rw [if_pos hk]
              omega
            · rw [if_neg hk]
              simp only [List.length_cons, List.map_cons, List.sum_cons, List.length_drop]
              have hbl : min BUFFER_LEN c.length = BUFFER_LEN := by omega
              rw [hbl]
              simp only [BUFFER_LEN] at hk ⊢
              omega)]
        have hjoin : c.take (min BUFFER_LEN c.length) ++
            (if min BUFFER_LEN c.length = c.length then rest
             else c.drop (min BUFFER_LEN c.length) :: rest).flatten =
            c ++ rest.flatten := by
          by_cases hk : min BUFFER_LEN c.length = c.length
          · rw [if_pos hk, hk, List.take_length]
          · rw [if_neg hk]
            simp [List.flatten_cons, ← List.append_assoc]
        rw [hjoin]
        simp [List.all_append, ht, List.flatten_cons]
    · cases chunks with
      | nil =>
        simp [epilogueF, ht]
      | cons c rest =>
        simp only [epilogueF, if_neg ht]
        have : (tail ++ (c :: rest).flatten).all isWsByte = false := by
          rw [List.all_append]
          simp [ht]
        rw [this]
        simp

/-- The single-field corpus with trailing whitespace after the closing
boundary (accepted), split so part of the whitespace arrives in a second
chunk. -/
def mpCorpusWs : List (List Nat) :=
  [strToBytes ("------boundary\r\nContent-Disposition: form-data; name=\"field\"\r\n\r\n" ++
     "value\r\n------boundary--\r\n  \t"), strToBytes "\r\n \t "]

/-- The single-field corpus with a non-whitespace byte after the closing
boundary (rejected). -/
def mpCorpusJunk : List Nat :=
  strToBytes ("------boundary\r\nContent-Disposition: form-data; name=\"field\"\r\n\r\n" ++
    "value\r\n------boundary--junk")

set_option maxRecDepth 1000000 in
/-- C7: after the closing boundary (`boundary--`), the epilogue accepts
exactly the whitespace bytes CR (13), LF (10), space (32) and tab (9) up
to end-of-stream and completes normally; the first other byte raises
`'Invalid data after end of multipart body'` — stated for `epilogueF` (the
lines 301–316 loop, for every remaining buffer tail and every remaining
chunk stream, given enough fuel), and exercised through full
`parseFormData` runs. -/
theorem multipart_epilogue_whitespace_only :
    (∀ (fuel : Nat) (tail : List Nat) (chunks : List (List Nat)),
      chunks.length + (chunks.map List.length).sum < fuel →
      epilogueF fuel tail chunks =
        (if (tail ++ chunks.flatten).all isWsByte then .ok () else .error .dataAfterEof))
  ∧ parseFormData mpBoundary mpCorpusWs [] 4000 =
      .ok [.field (strToBytes "field") (strToBytes "value")]
  ∧ parseFormData mpBoundary [mpCorpusJunk] [] 4000 =
      .error (.main (.inner .dataAfterEof)) :=
  ⟨epilogueF_char, by decide, by decide⟩

/-- Witness for C7 at a concrete tail and stream. -/
theorem multipart_epilogue_whitespace_only_witness :
    epilogueF 4 [32, 9] [[13, 10]] =
      (if (([32, 9] ++ ([[13, 10]] : List (List Nat)).flatten).all isWsByte = true)
       then Except.ok () else Except.error IErr.dataAfterEof) :=
  multipart_epilogue_whitespace_only.1 4 [32, 9] [[13, 10]] (by decide)

/-- C8: an empty boundary, or one longer than `MAX_BOUNDARY_LEN` (100)
bytes, makes `parseFormData` fail with `'Invalid boundary'` for **every**
input stream, consumer script and fuel — in particular without consuming
any bytes of the stream; every boundary of 1 to 100 bytes passes the
validation (the `'Invalid boundary'` error cannot occur). -/
theorem parseFormData_boundary_validation :
    (∀ (boundary : List Nat) (chunks : List (List Nat))
        (script : List FileAction) (fuel : Nat),
      boundary.length = 0 ∨ boundary.length > 100 →
      parseFormData boundary chunks script fuel = .error .invalidBoundary)
  ∧ (∀ (boundary : List Nat) (chunks : List (List Nat))
        (script : List FileAction) (fuel : Nat),
      1 ≤ boundary.length → boundary.length ≤ 100 →
      parseFormData boundary chunks script fuel ≠ .error .invalidBoundary) := by
  constructor
  · intro b c s f h
    unfold parseFormData
    rw [if_pos (by simpa [MAX_BOUNDARY_LEN] using h)]
  · intro b c s f h1 h2
    unfold parseFormData
    rw [if_neg (by simp only [MAX_BOUNDARY_LEN]; omega)]
    rcases hp : preambleF b f { buf := [], bufStart := 0, chunks := c } with e | st
    · simp
    · rcases hm : mainLoopF b f st .header [] [] [] [] s [] with e | entries
      · simp [hm]
      · simp [hm]

/-- Witness for C8: the empty boundary fails, a 1-byte boundary passes. -/
theorem parseFormData_boundary_validation_witness :
    parseFormData [] [[1, 2, 3]] [] 10 = .error .invalidBoundary
  ∧ parseFormData [45] [[1, 2, 3]] [] 10 ≠ .error .invalidBoundary :=
  ⟨parseFormData_boundary_validation.1 [] [[1, 2, 3]] [] 10 (by decide),
   parseFormData_boundary_validation.2 [45] [[1, 2, 3]] [] 10 (by decide) (by decide)⟩

/-- A mixed body: an uploaded file part (`f1`, filename `a.txt`,
content-type `text/plain`, payload `FILEDATA`) followed by an ordinary
field part (`field2=value2`). -/
def mpMix : List Nat :=
  strToBytes ("------boundary\r\nContent-Disposition: form-data; name=\"f1\"; filename=\"a.txt\"\r\nContent-Type: text/plain\r\n\r\n" ++
    "FILEDATA\r\n------boundary\r\nContent-Disposition: form-data; name=\"field2\"\r\n\r\nvalue2\r\n------boundary--")

/-- The `readComplete` flag of lines 260–297: the consumer's behaviour at
each file part is a `FileAction`; advancing without draining or
cancelling (`.skip`) hits the `'Please, read the whole file stream, or
cancel it, before reading next form field'` throw, modelled as
`MLErr.fileNotConsumed`. -/
theorem mainLoopF_no_skip_no_fnc (boundary : List Nat) :
    ∀ (fuel : Nat) (st : MSt) (state : HState) (headerName name filename
      contentTypeFull : List Nat) (script : List FileAction) (acc : List FdEntry),
    FileAction.skip ∉ script →
    mainLoopF boundary fuel st state headerName name filename contentTypeFull
        script acc ≠ Except.error MLErr.fileNotConsumed := by
  intro fuel
  induction fuel with
  | zero =>
    intro st state hn n fn ct script acc hs
    simp [mainLoopF]
  | succ f ih =>
    intro st state hn n fn ct script acc hs hcontra
    rw [mainLoopF] at hcontra
    simp only [] at hcontra
    split at hcontra
    · simp at hcontra
    · split at hcontra
      · -- .header
        split at hcontra
        · -- i ≠ bufStart: header name
          split at hcontra
          · simp at hcontra
          · exact ih _ _ _ _ _ _ _ _ hs hcontra
        · -- empty line
          split at hcontra
          · simp at hcontra
          · split at hcontra
            · simp at hcontra
            · split at hcontra
              · -- field
                split at hcontra
                · simp at hcontra
                · -- afterBody
                  split at hcontra
                  · split at hcontra
                    · simp at hcontra
                    · simp at hcontra
                  · exact ih _ _ _ _ _ _ _ _ hs hcontra
              · -- file
                split at hcontra
                · -- .skip branch: contradiction with hs
                  rename_i hact
                  cases hsc : script with
                  | nil => rw [hsc] at hact; simp [List.headD] at hact
                  | cons a t =>
                    rw [hsc] at hact
                    simp [List.headD] at hact
                    exact hs (hsc ▸ (hact ▸ List.mem_cons_self a t))
                · -- .drain
                  split at hcontra
                  · simp at hcontra
                  · split at hcontra
                    · split at hcontra
                      · simp at hcontra
                      · simp at hcontra
                    · refine ih _ _ _ _ _ _ _ _ ?_ hcontra
                      intro hmem
                      exact hs (List.mem_of_mem_tail hmem)
                · -- .cancel
                  split at hcontra
                  · simp at hcontra
                  · split at hcontra
                    · split at hcontra
                      · simp at hcontra
                      · simp at hcontra
                    · refine ih _ _ _ _ _ _ _ _ ?_ hcontra
                      intro hmem
                      exact hs (List.mem_of_mem_tail hmem)
      · -- .headerValue
        split at hcontra
        · split at hcontra
          · simp at hcontra
          · split at hcontra
            · simp at hcontra
            · split at hcontra
              · simp at hcontra
              · exact ih _ _ _ _ _ _ _ _ hs hcontra
        · split at hcontra
          · split at hcontra
            · simp at hcontra
            · exact ih _ _ _ _ _ _ _ _ hs hcontra
          · split at hcontra
            · simp at hcontra
            · exact ih _ _ _ _ _ _ _ _ hs hcontra

set_option maxRecDepth 1000000 in
/-- C6: advancing past a yielded file entry without draining or
cancelling its stream raises the `'Please, read the whole file stream,
or cancel it, before reading next form field'` error
(`MLErr.fileNotConsumed`); a consumer that drains or cancels every file
stream can never hit it (for every boundary, state, fuel and script
without a `.skip`), and after a drain or a cancel the parser proceeds
normally to the following part. -/
theorem parseFormData_file_drain_protocol :
    (∀ (boundary : List Nat) (fuel : Nat) (st : MSt) (state : HState)
        (headerName name filename contentTypeFull : List Nat)
        (script : List FileAction) (acc : List FdEntry),
      FileAction.skip ∉ script →
      mainLoopF boundary fuel st state headerName name filename contentTypeFull
          script acc ≠ Except.error MLErr.fileNotConsumed)
  ∧ parseFormData mpBoundary [mpMix] [.skip] 4000 = .error (.main .fileNotConsumed)
  ∧ parseFormData mpBoundary [mpMix] [.drain 65536] 4000 =
      .ok [.file (strToBytes "f1") (strToBytes "a.txt") (strToBytes "text/plain")
             (some (strToBytes "FILEDATA")),
           .field (strToBytes "field2") (strToBytes "value2")]
  ∧ parseFormData mpBoundary [mpMix] [.cancel] 4000 =
      .ok [.file (strToBytes "f1") (strToBytes "a.txt") (strToBytes "text/plain") none,
           .field (strToBytes "field2") (strToBytes "value2")] :=
  ⟨mainLoopF_no_skip_no_fnc, by decide, by decide, by decide⟩

/-- Witness for C6 at a concrete no-skip script. -/
theorem parseFormData_file_drain_protocol_witness :
    FileAction.skip ∉ ([.drain 7] : List FileAction)
  ∧ mainLoopF [45] 2 { buf := [], bufStart := 0, chunks := [] } .header [] [] [] []
      [.drain 7] [] ≠ Except.error MLErr.fileNotConsumed :=
  ⟨by decide,
   parseFormData_file_drain_protocol.1 [45] 2
     { buf := [], bufStart := 0, chunks := [] } .header [] [] [] []
     [.drain 7] [] (by decide)⟩

end SuperRequest
